import Mathlib

/-!
Shallow embedding of `migrate-safe.ts`, a supervised Prisma migration
pipeline: validate the CLI argument, run the generator command, locate the
newest migration directory, strip blacklisted lines from its
`migration.sql`, and run the deploy command.

JavaScript strings are modelled as `List Char` where character-level
behaviour matters (file contents, substring search, name comparison); paths
and command lines that are only passed around are kept as Lean `String`s.
Filesystem and child-process behaviour is abstracted into an environment
record, and `main` is embedded as a function from that environment to the
list of externally visible events it performs plus its final outcome.
-/

/-! ## JavaScript string primitives -/

/-- Model of the comparison JavaScript uses for `Array.prototype.sort()`
with no comparator: lexicographic order on code units (it agrees with
codepoint order on the BMP names involved here). `jsLt a b` is `a < b`. -/
def jsLt : List Char → List Char → Bool
  | _, [] => false
  | [], _ :: _ => true
  | a :: as, b :: bs =>
    if a.toNat < b.toNat then true
    else if b.toNat < a.toNat then false
    else jsLt as bs

/-- String `a <= b` in the JavaScript sort order. -/
def jsLe (a b : List Char) : Bool := !(jsLt b a)

/-- Model of `String.prototype.includes`: `includesSub hay needle` is true
iff `needle` occurs contiguously inside `hay` (the empty needle always
occurs, as in JavaScript). -/
def includesSub : List Char → List Char → Bool
  | hay, needle =>
    match hay with
    | [] => needle.isEmpty
    | _ :: tl => needle.isPrefixOf hay || includesSub tl needle

/-- Model of `content.split('\n')` on a JavaScript string: the list of
newline-free segments; splitting the empty string yields one empty
segment, exactly as in JavaScript. -/
def splitOnNl : List Char → List (List Char)
  | [] => [[]]
  | c :: cs =>
    if c = '\n' then [] :: splitOnNl cs
    else
      match splitOnNl cs with
      | [] => [[c]]
      | l :: ls => (c :: l) :: ls

/-- Model of `lines.join('\n')`. -/
def joinNl : List (List Char) → List Char
  | [] => []
  | [l] => l
  | l :: l2 :: ls => l ++ '\n' :: joinNl (l2 :: ls)

/-! ## Configuration (the `linesToRemove` array of the script) -/

/-- The configured blacklist of statement fragments, verbatim from the
source. -/
def linesToRemove : List (List Char) :=
  [("ALTER TABLE `PostCoordinates` DROP FOREIGN KEY `PostCoordinates_postId_fkey`;").toList,
   ("DROP INDEX `idx_postcoordinates_geo` ON `PostCoordinates`;").toList]

/-! ## The sanitizer (Step 3 of `main`) -/

/-- One iteration of the `linesToRemove.forEach` loop of Step 3: split the
current content on newlines, drop every line that `includes` the fragment,
and only when that shortened the list, rejoin and bump the removal count. -/
def sanitizeStep (acc : List Char × Nat) (lineToRemove : List Char) :
    List Char × Nat :=
  let lines := splitOnNl acc.1
  let originalLength := lines.length
  let filteredLines := lines.filter fun line => !(includesSub line lineToRemove)
  if filteredLines.length < originalLength then
    (joinNl filteredLines, acc.2 + (originalLength - filteredLines.length))
  else acc

/-- The whole Step 3 loop: fold `sanitizeStep` over the blacklist starting
from the file content and a zero removal count. -/
def sanitize (content : List Char) (toRemove : List (List Char)) :
    List Char × Nat :=
  toRemove.foldl sanitizeStep (content, 0)

/-- Whether a line contains at least one blacklisted fragment. -/
def matchesAny (toRemove : List (List Char)) (line : List Char) : Bool :=
  toRemove.any fun sub => includesSub line sub

/-- Single-pass sanitizer, written from the specification: drop every line
containing any blacklisted fragment, count the dropped lines. Used as the
reference point of the refinement claim about the sequential loop. -/
def sanitizeSpec (content : List Char) (toRemove : List (List Char)) :
    List Char × Nat :=
  let lines := splitOnNl content
  let kept := lines.filter fun line => !(matchesAny toRemove line)
  (joinNl kept, lines.length - kept.length)

/-! ## The locator (Step 2 of `main`) -/

/-- Insertion into a sorted list, interface of the sort used to model
`Array.prototype.sort()`. -/
def orderedInsertB (le : List Char → List Char → Bool) (a : List Char) :
    List (List Char) → List (List Char)
  | [] => [a]
  | b :: l => if le a b then a :: b :: l else b :: orderedInsertB le a l

/-- Insertion sort modelling `Array.prototype.sort()` (a comparison sort
ordering the array ascending by `le`; stability is irrelevant here). -/
def sortJs (le : List Char → List Char → Bool) :
    List (List Char) → List (List Char)
  | [] => []
  | a :: l => orderedInsertB le a (sortJs le l)

/-- Step 2 of `main`: `readdirSync(dir).sort().reverse()` followed by
selecting index 1 (`allMigrations[1]`, `undefined` when absent). -/
def locateLatest (entries : List (List Char)) : Option (List Char) :=
  ((sortJs jsLe entries).reverse)[1]?

/-- Model of `path.join` for the two-argument uses of the script. -/
def pathJoin (a b : List Char) : List Char := a ++ ('/' :: b)

/-- `path.join(process.cwd(), 'prisma', 'schema', 'migrations')`. -/
def migrationsDir (cwd : List Char) : List Char :=
  pathJoin (pathJoin (pathJoin cwd ("prisma").toList) ("schema").toList)
    ("migrations").toList

/-- `path.join(migrationsDir, latestMigrationDirName, 'migration.sql')`. -/
def migrationFilePath (cwd dirName : List Char) : List Char :=
  pathJoin (pathJoin (migrationsDir cwd) dirName) ("migration.sql").toList

/-! ## Commands, messages, events -/

/-- The Step 1 command line built from the migration name. -/
def generateCmd (name : List Char) : List Char :=
  ("npx prisma migrate dev --name \"").toList ++ name ++
    ("\" --create-only").toList

/-- The Step 4 command line. -/
def deployCmd : List Char := ("npx prisma migrate deploy").toList

/-- The usage error printed when no migration name is given. -/
def usageMsg : List Char :=
  ("Error: Provide migration name. Usage: npm run migrate:safe -- \"my-migration-name\"").toList

/-- The error printed by `runCommand` when a command fails. -/
def cmdFailMsg (command : List Char) : List Char :=
  ("Command \"").toList ++ command ++ ("\" failed.").toList

/-- The error printed when no migration directory is found at index 1. -/
def notFoundMsg : List Char := ("Migration folder not found.").toList

/-- Result of attempting to run a child process with `execSync`. -/
inductive CmdResult where
  | exited (status : Nat)
  | spawnFailure
deriving DecidableEq

/-- What `runCommand` does after the child finishes: return to the caller,
or terminate the whole process with the given exit code. -/
inductive RunOutcome where
  | normal
  | fatal (code : Nat)
deriving DecidableEq

/-- Externally visible actions of one run of the script. -/
inductive Event where
  | cmd (command : List Char)
  | readdir
  | readFile (p : List Char)
  | writeFile (p : List Char) (content : List Char)
  | report (msg : List Char)
deriving DecidableEq

/-- How the process ends: `main` returns (exit code 0), `process.exit`
was called, or an exception escaped `main` (Node terminates the process
on the unhandled rejection, printing the error). -/
inductive Outcome where
  | ok
  | exited (code : Nat)
  | crashed (msg : List Char)
deriving DecidableEq

/-- The process exit code of an outcome. Node's default handling of an
unhandled promise rejection terminates the process with exit code 1. -/
def exitCode : Outcome → Nat
  | .ok => 0
  | .exited c => c
  | .crashed _ => 1

/-- `runCommand` from the source: `execSync` throws exactly when the child
does not exit with status 0 (nonzero status or spawn failure); the catch
block reports which command failed and calls `process.exit(1)`. -/
def runCommand (command : List Char) (res : CmdResult) :
    List Event × RunOutcome :=
  if res = .exited 0 then ([.cmd command], .normal)
  else ([.cmd command, .report (cmdFailMsg command)], .fatal 1)

/-- Abstraction of everything outside the script that one run can observe:
the CLI argument, the working directory, and the responses of the
filesystem and of the two child processes. `none` for `readdirSync` or
`readFileSync` means the call throws; `writeThrows` means `writeFileSync`
throws. -/
structure Env where
  argv2 : Option (List Char)
  cwd : List Char
  genResult : CmdResult
  entries : Option (List (List Char))
  readResult : Option (List Char)
  writeThrows : Bool
  deployResult : CmdResult

/-- Error message attached to a `readdirSync` failure. -/
def readdirErrMsg : List Char :=
  ("ENOENT: no such file or directory, scandir (migrations root)").toList

/-- Error message attached to a `readFileSync` failure. -/
def readErrMsg : List Char :=
  ("ENOENT: no such file or directory, open (migration.sql)").toList

/-- Error message attached to a `writeFileSync` failure. -/
def writeErrMsg : List Char :=
  ("EACCES: permission denied, open (migration.sql)").toList

/-- Step 4 followed by the success return of `main`. -/
def finishRun (ev : List Event) (env : Env) : List Event × Outcome :=
  let r := runCommand deployCmd env.deployResult
  match r.2 with
  | .fatal c => (ev ++ r.1, .exited c)
  | .normal => (ev ++ r.1, .ok)

/-- The `main` function of the script as a trace semantics: the events it
performs in order, and how the process ends. Mirrors the source
step-for-step: argument check, Step 1 generate, Step 2 readdir + sort +
reverse + index 1, Step 3 read / sanitize / conditional write, Step 4
deploy. -/
def mainRun (env : Env) : List Event × Outcome :=
  match env.argv2 with
  | none => ([.report usageMsg], .exited 1)
  | some migrationName =>
    if migrationName.isEmpty then ([.report usageMsg], .exited 1)
    else
      let gen := runCommand (generateCmd migrationName) env.genResult
      match gen.2 with
      | .fatal c => (gen.1, .exited c)
      | .normal =>
        match env.entries with
        | none => (gen.1 ++ [.readdir], .crashed readdirErrMsg)
        | some entries =>
          let ev2 := gen.1 ++ [.readdir]
          match locateLatest entries with
          | none => (ev2 ++ [.report notFoundMsg], .exited 1)
          | some latestMigrationDirName =>
            let fp := migrationFilePath env.cwd latestMigrationDirName
            match env.readResult with
            | none => (ev2 ++ [.readFile fp], .crashed readErrMsg)
            | some migrationContent =>
              let ev3 := ev2 ++ [.readFile fp]
              let res := sanitize migrationContent linesToRemove
              if 0 < res.2 then
                if env.writeThrows then
                  (ev3 ++ [.writeFile fp res.1], .crashed writeErrMsg)
                else finishRun (ev3 ++ [.writeFile fp res.1]) env
              else finishRun ev3 env

/-! ## Concrete data for the worked examples -/

/-- The four-line example script of the specification. -/
def exampleScript : List Char :=
  ("CREATE TABLE X (...);\nALTER TABLE `PostCoordinates` DROP FOREIGN KEY `PostCoordinates_postId_fkey`;\nDROP INDEX `idx_postcoordinates_geo` ON `PostCoordinates`;\nCREATE INDEX y ON z;").toList

/-- The two CREATE lines that survive sanitizing the example script. -/
def cleanScript : List Char :=
  ("CREATE TABLE X (...);\nCREATE INDEX y ON z;").toList

/-- The example migrations-root listing of the specification. -/
def exampleEntries : List (List Char) :=
  [("20240101_a").toList, ("20240102_b").toList,
   ("migration_lock.toml").toList]

/-- All error text a run makes visible to the operator: every
`console.error` line of the trace, plus the message of an uncaught
exception (Node prints it while terminating on the unhandled
rejection). -/
def reportedMsgs (r : List Event × Outcome) : List (List Char) :=
  (r.1.filterMap fun e =>
    match e with
    | .report m => some m
    | _ => none) ++
  (match r.2 with
   | .crashed m => [m]
   | _ => [])

/-- An environment of a fully successful run over the example data. -/
def envHappy : Env :=
  ⟨some (("add-field").toList), ("/app").toList, .exited 0,
   some exampleEntries, some exampleScript, false, .exited 0⟩

/-- An environment invoked without a migration name. -/
def envNoName : Env :=
  ⟨none, ("/app").toList, .exited 0, some exampleEntries,
   some exampleScript, false, .exited 0⟩

/-- An environment whose generator command exits with status 1. -/
def envGenFail : Env :=
  ⟨some (("add-field").toList), ("/app").toList, .exited 1,
   some exampleEntries, some exampleScript, false, .exited 0⟩

/-- An environment whose migrations root lists no entries. -/
def envEmptyRoot : Env :=
  ⟨some (("add-field").toList), ("/app").toList, .exited 0, some [],
   some exampleScript, false, .exited 0⟩

/-- An environment whose migration script is already clean. -/
def envClean : Env :=
  ⟨some (("add-field").toList), ("/app").toList, .exited 0,
   some exampleEntries, some cleanScript, false, .exited 0⟩

/-! ## Lemmas about lines, joining, and filtering -/

theorem splitOnNl_ne_nil (cs : List Char) : splitOnNl cs ≠ [] := by
  induction cs with
  | nil => simp [splitOnNl]
  | cons c cs ih =>
    simp only [splitOnNl]
    split
    · simp
    · split
      · simp
      · simp

theorem nl_not_mem_splitOnNl (cs : List Char) :
    ∀ l ∈ splitOnNl cs, '\n' ∉ l := by
  induction cs with
  | nil =>
    intro l hl
    simp [splitOnNl] at hl
    subst hl
    simp
  | cons c cs ih =>
    intro l hl
    simp only [splitOnNl] at hl
    by_cases hc : c = '\n'
    · rw [if_pos hc] at hl
      rcases List.mem_cons.mp hl with h | h
      · subst h; simp
      · exact ih l h
    · rw [if_neg hc] at hl
      cases hs : splitOnNl cs with
      | nil => exact absurd hs (splitOnNl_ne_nil cs)
      | cons hd tl =>
        rw [hs] at hl
        rcases List.mem_cons.mp hl with h | h
        · subst h
          intro hmem
          rcases List.mem_cons.mp hmem with h1 | h1
          · exact hc h1.symm
          · exact ih hd (hs ▸ List.mem_cons_self hd tl) h1
        · exact ih l (hs ▸ List.mem_cons_of_mem hd h)

theorem splitOnNl_no_nl (l : List Char) (h : '\n' ∉ l) : splitOnNl l = [l] := by
  induction l with
  | nil => rfl
  | cons c cs ih =>
    have hc : ¬ c = '\n' := fun e => h (e ▸ List.mem_cons_self c cs)
    have hcs : '\n' ∉ cs := fun m => h (List.mem_cons_of_mem _ m)
    simp only [splitOnNl, if_neg hc, ih hcs]

theorem splitOnNl_append_nl (l rest : List Char) (h : '\n' ∉ l) :
    splitOnNl (l ++ '\n' :: rest) = l :: splitOnNl rest := by
  induction l with
  | nil => simp [splitOnNl]
  | cons c cs ih =>
    have hc : ¬ c = '\n' := fun e => h (e ▸ List.mem_cons_self c cs)
    have hcs : '\n' ∉ cs := fun m => h (List.mem_cons_of_mem _ m)
    rw [List.cons_append]
    simp only [splitOnNl, if_neg hc]
    rw [ih hcs]

theorem splitOnNl_joinNl (ls : List (List Char)) (hne : ls ≠ [])
    (h : ∀ l ∈ ls, '\n' ∉ l) : splitOnNl (joinNl ls) = ls := by
  induction ls with
  | nil => exact absurd rfl hne
  | cons l ls ih =>
    cases ls with
    | nil =>
      rw [show joinNl [l] = l from rfl]
      exact splitOnNl_no_nl l (h l (List.mem_cons_self _ _))
    | cons l2 ls2 =>
      rw [show joinNl (l :: l2 :: ls2) = l ++ '\n' :: joinNl (l2 :: ls2) from rfl]
      rw [splitOnNl_append_nl l _ (h l (List.mem_cons_self _ _))]
      rw [ih (by simp) (fun x hx => h x (List.mem_cons_of_mem _ hx))]

theorem joinNl_splitOnNl (cs : List Char) : joinNl (splitOnNl cs) = cs := by
  induction cs with
  | nil => rfl
  | cons c cs ih =>
    by_cases hc : c = '\n'
    · subst hc
      have hsplit : splitOnNl ('\n' :: cs) = [] :: splitOnNl cs := by
        simp [splitOnNl]
      rw [hsplit]
      cases hs : splitOnNl cs with
      | nil => exact absurd hs (splitOnNl_ne_nil cs)
      | cons hd tl =>
        rw [hs] at ih
        rw [show joinNl ([] :: hd :: tl) = [] ++ '\n' :: joinNl (hd :: tl) from rfl]
        rw [List.nil_append, ih]
    · simp only [splitOnNl, if_neg hc]
      cases hs : splitOnNl cs with
      | nil => exact absurd hs (splitOnNl_ne_nil cs)
      | cons hd tl =>
        rw [hs] at ih
        cases tl with
        | nil =>
          rw [show joinNl [hd] = hd from rfl] at ih
          rw [show joinNl [c :: hd] = c :: hd from rfl, ih]
        | cons h2 t2 =>
          rw [show joinNl (hd :: h2 :: t2) = hd ++ '\n' :: joinNl (h2 :: t2) from rfl] at ih
          rw [show joinNl ((c :: hd) :: h2 :: t2) = (c :: hd) ++ '\n' :: joinNl (h2 :: t2) from rfl]
          rw [List.cons_append, ih]

theorem filter_eq_self_of_not_lt {α : Type} {p : α → Bool} {l : List α}
    (h : ¬ (l.filter p).length < l.length) : l.filter p = l :=
  (List.filter_sublist (p := p) l).eq_of_length
    (Nat.le_antisymm (List.length_filter_le p l) (Nat.le_of_not_lt h))

theorem length_filter_add_length_filter_not {α : Type} (l : List α) (p : α → Bool) :
    (l.filter p).length + (l.filter fun a => !(p a)).length = l.length := by
  induction l with
  | nil => rfl
  | cons a l ih =>
    cases h : p a <;> simp [List.filter_cons, h] <;> omega

/-- One pass of the Step 3 loop on content that is the join of a list of
newline-free lines: it filters that list by the fragment and accounts for
the dropped lines, whether or not the guard fires. -/
theorem sanitizeStep_joinNl (kept : List (List Char)) (b : List Char) (n : Nat)
    (hnl : ∀ l ∈ kept, '\n' ∉ l) (hb : b ≠ []) :
    sanitizeStep (joinNl kept, n) b =
      (joinNl (kept.filter fun l => !(includesSub l b)),
       n + (kept.length - (kept.filter fun l => !(includesSub l b)).length)) := by
  cases kept with
  | nil =>
    have hsplit : splitOnNl (joinNl ([] : List (List Char))) = [[]] := rfl
    have hinc : includesSub [] b = false := by
      cases b with
      | nil => exact absurd rfl hb
      | cons c cs => rfl
    simp only [sanitizeStep, hsplit, List.filter_cons, hinc, Bool.not_false,
      if_pos rfl, List.filter_nil, List.length_cons, List.length_nil]
    simp
  | cons k ks =>
    have hsplit : splitOnNl (joinNl (k :: ks)) = k :: ks :=
      splitOnNl_joinNl (k :: ks) (by simp) hnl
    simp only [sanitizeStep, hsplit]
    by_cases hlt :
        ((k :: ks).filter fun l => !(includesSub l b)).length < (k :: ks).length
    · rw [if_pos hlt]
    · rw [if_neg hlt]
      rw [filter_eq_self_of_not_lt hlt]
      simp

/-- Folding the Step 3 loop over a blacklist of nonempty fragments,
starting from joined newline-free lines: the result is the single-pass
filter by all fragments, and the count is the total number of dropped
lines. -/
theorem foldl_sanitizeStep_joinNl (B : List (List Char))
    (hB : ∀ b ∈ B, b ≠ []) (kept : List (List Char))
    (hnl : ∀ l ∈ kept, '\n' ∉ l) (n : Nat) :
    B.foldl sanitizeStep (joinNl kept, n) =
      (joinNl (kept.filter fun l => !(matchesAny B l)),
       n + (kept.length - (kept.filter fun l => !(matchesAny B l)).length)) := by
  induction B generalizing kept n with
  | nil =>
    have : (kept.filter fun l => !(matchesAny [] l)) = kept := by
      apply List.filter_eq_self.mpr
      intro a _
      rfl
    simp [this, matchesAny]
  | cons b B ih =>
    rw [List.foldl_cons]
    rw [sanitizeStep_joinNl kept b n hnl (hB b (List.mem_cons_self _ _))]
    rw [ih (fun x hx => hB x (List.mem_cons_of_mem _ hx))
      (kept.filter fun l => !(includesSub l b))
      (fun l hl => hnl l (List.mem_filter.mp hl).1)]
    have hff :
        (((kept.filter fun l => !(includesSub l b)).filter
            fun l => !(matchesAny B l)))
          = kept.filter fun l => !(matchesAny (b :: B) l) := by
      rw [List.filter_filter]
      apply List.filter_congr
      intro x _
      show ((!(matchesAny B x)) && (!(includesSub x b)))
        = (!(matchesAny (b :: B) x))
      have hor : matchesAny (b :: B) x = (includesSub x b || matchesAny B x) := by
        simp [matchesAny]
      rw [hor]
      cases includesSub x b <;> cases matchesAny B x <;> rfl
    rw [hff]
    have h1 : ((kept.filter fun l => !(matchesAny (b :: B) l)).length
        ≤ (kept.filter fun l => !(includesSub l b)).length) := by
      rw [← hff]
      exact List.length_filter_le _ _
    have h2 : ((kept.filter fun l => !(includesSub l b)).length ≤ kept.length) :=
      List.length_filter_le _ _
    have h3 : ((kept.filter fun l => !(matchesAny (b :: B) l)).length
        ≤ kept.length) := List.length_filter_le _ _
    congr 1
    omega

/-- Heart of the refinement and correctness claims: on a blacklist of
nonempty fragments the sequential per-fragment loop coincides with the
single-pass sanitizer written from the specification. -/
theorem sanitize_eq_spec_aux (content : List Char) (B : List (List Char))
    (hB : ∀ b ∈ B, b ≠ []) : sanitize content B = sanitizeSpec content B := by
  have hct : content = joinNl (splitOnNl content) := (joinNl_splitOnNl content).symm
  rw [sanitize, sanitizeSpec]
  conv_lhs => rw [hct]
  rw [foldl_sanitizeStep_joinNl B hB (splitOnNl content)
    (nl_not_mem_splitOnNl content) 0]
  simp

theorem sanitizeStep_clean (content : List Char) (n : Nat) (b : List Char)
    (h : ∀ l ∈ splitOnNl content, includesSub l b = false) :
    sanitizeStep (content, n) b = (content, n) := by
  have hfe : (splitOnNl content).filter (fun line => !(includesSub line b))
      = splitOnNl content :=
    List.filter_eq_self.mpr (fun a ha => by rw [h a ha]; rfl)
  simp only [sanitizeStep, hfe]
  simp

theorem foldl_sanitizeStep_clean (B : List (List Char)) (content : List Char)
    (h : ∀ l ∈ splitOnNl content, ∀ b ∈ B, includesSub l b = false) (n : Nat) :
    B.foldl sanitizeStep (content, n) = (content, n) := by
  induction B with
  | nil => rfl
  | cons b B ih =>
    rw [List.foldl_cons, sanitizeStep_clean content n b
      (fun l hl => h l hl b (List.mem_cons_self _ _))]
    exact ih (fun l hl b2 hb2 => h l hl b2 (List.mem_cons_of_mem _ hb2))

/-! ## Branch equations of `mainRun` -/

theorem mainRun_no_name (env : Env)
    (h : env.argv2 = none ∨ env.argv2 = some []) :
    mainRun env = ([.report usageMsg], .exited 1) := by
  rcases h with h | h <;> simp [mainRun, h]

theorem mainRun_gen_fails (env : Env) (c : Char) (nm : List Char)
    (hargv : env.argv2 = some (c :: nm))
    (hgen : env.genResult ≠ .exited 0) :
    mainRun env =
      ([.cmd (generateCmd (c :: nm)),
        .report (cmdFailMsg (generateCmd (c :: nm)))], .exited 1) := by
  simp [mainRun, hargv, runCommand, hgen]

theorem mainRun_root_missing (env : Env) (c : Char) (nm : List Char)
    (hargv : env.argv2 = some (c :: nm))
    (hgen : env.genResult = .exited 0)
    (hroot : env.entries = none) :
    mainRun env =
      ([.cmd (generateCmd (c :: nm)), .readdir], .crashed readdirErrMsg) := by
  simp [mainRun, hargv, runCommand, hgen, hroot]

theorem mainRun_locate_fails (env : Env) (c : Char) (nm : List Char)
    (es : List (List Char))
    (hargv : env.argv2 = some (c :: nm))
    (hgen : env.genResult = .exited 0)
    (hroot : env.entries = some es)
    (hloc : locateLatest es = none) :
    mainRun env =
      ([.cmd (generateCmd (c :: nm)), .readdir, .report notFoundMsg],
       .exited 1) := by
  simp [mainRun, hargv, runCommand, hgen, hroot, hloc]

theorem mainRun_read_fails (env : Env) (c : Char) (nm : List Char)
    (es : List (List Char)) (d : List Char)
    (hargv : env.argv2 = some (c :: nm))
    (hgen : env.genResult = .exited 0)
    (hroot : env.entries = some es)
    (hloc : locateLatest es = some d)
    (hread : env.readResult = none) :
    mainRun env =
      ([.cmd (generateCmd (c :: nm)), .readdir,
        .readFile (migrationFilePath env.cwd d)], .crashed readErrMsg) := by
  simp [mainRun, hargv, runCommand, hgen, hroot, hloc, hread]

theorem mainRun_no_removal (env : Env) (c : Char) (nm : List Char)
    (es : List (List Char)) (d : List Char) (ct : List Char)
    (hargv : env.argv2 = some (c :: nm))
    (hgen : env.genResult = .exited 0)
    (hroot : env.entries = some es)
    (hloc : locateLatest es = some d)
    (hread : env.readResult = some ct)
    (hzero : (sanitize ct linesToRemove).2 = 0) :
    mainRun env =
      finishRun [.cmd (generateCmd (c :: nm)), .readdir,
        .readFile (migrationFilePath env.cwd d)] env := by
  simp [mainRun, hargv, runCommand, hgen, hroot, hloc, hread, sanitize] at *
  simp [hzero]

theorem mainRun_removal_write_fails (env : Env) (c : Char) (nm : List Char)
    (es : List (List Char)) (d : List Char) (ct : List Char)
    (hargv : env.argv2 = some (c :: nm))
    (hgen : env.genResult = .exited 0)
    (hroot : env.entries = some es)
    (hloc : locateLatest es = some d)
    (hread : env.readResult = some ct)
    (hpos : 0 < (sanitize ct linesToRemove).2)
    (hw : env.writeThrows = true) :
    mainRun env =
      ([.cmd (generateCmd (c :: nm)), .readdir,
        .readFile (migrationFilePath env.cwd d),
        .writeFile (migrationFilePath env.cwd d)
          (sanitize ct linesToRemove).1], .crashed writeErrMsg) := by
  simp [mainRun, hargv, runCommand, hgen, hroot, hloc, hread, hw, sanitize] at *
  intro h
  omega

theorem mainRun_removal_written (env : Env) (c : Char) (nm : List Char)
    (es : List (List Char)) (d : List Char) (ct : List Char)
    (hargv : env.argv2 = some (c :: nm))
    (hgen : env.genResult = .exited 0)
    (hroot : env.entries = some es)
    (hloc : locateLatest es = some d)
    (hread : env.readResult = some ct)
    (hpos : 0 < (sanitize ct linesToRemove).2)
    (hw : env.writeThrows = false) :
    mainRun env =
      finishRun [.cmd (generateCmd (c :: nm)), .readdir,
        .readFile (migrationFilePath env.cwd d),
        .writeFile (migrationFilePath env.cwd d)
          (sanitize ct linesToRemove).1] env := by
  simp [mainRun, hargv, runCommand, hgen, hroot, hloc, hread, hw, sanitize] at *
  intro h
  omega

theorem isPrefixOf_append_self (l t : List Char) :
    l.isPrefixOf (l ++ t) = true := by
  induction l with
  | nil => simp [List.isPrefixOf]
  | cons a as ih => simp [List.isPrefixOf, ih]

theorem includesSub_nil_needle (hay : List Char) : includesSub hay [] = true := by
  cases hay <;> simp [includesSub, List.isPrefixOf]

theorem includesSub_append_middle (pre mid suf : List Char) :
    includesSub (pre ++ (mid ++ suf)) mid = true := by
  induction pre with
  | nil =>
    rw [List.nil_append]
    cases mid with
    | nil => exact includesSub_nil_needle ([] ++ suf)
    | cons m ms =>
      rw [List.cons_append]
      simp only [includesSub]
      rw [← List.cons_append, isPrefixOf_append_self]
      simp
  | cons p ps ih =>
    rw [List.cons_append]
    simp only [includesSub]
    rw [ih]
    simp

theorem cmdFailMsg_includes (command : List Char) :
    includesSub (cmdFailMsg command) command = true := by
  rw [cmdFailMsg, List.append_assoc]
  exact includesSub_append_middle _ _ _

theorem finishRun_eq (ev : List Event) (env : Env) :
    (env.deployResult = .exited 0 ∧
      finishRun ev env = (ev ++ [.cmd deployCmd], .ok)) ∨
    (env.deployResult ≠ .exited 0 ∧
      finishRun ev env =
        (ev ++ [.cmd deployCmd, .report (cmdFailMsg deployCmd)], .exited 1)) := by
  by_cases h : env.deployResult = .exited 0
  · exact Or.inl ⟨h, by simp [finishRun, runCommand, h]⟩
  · exact Or.inr ⟨h, by simp [finishRun, runCommand, h]⟩

theorem generateCmd_ne_deployCmd (name : List Char) :
    generateCmd name ≠ deployCmd := by
  intro h
  have h21 : (generateCmd name)[21]? = deployCmd[21]? := by rw [h]
  rw [generateCmd, List.append_assoc] at h21
  rw [List.getElem?_append_left (by decide)] at h21
  exact absurd h21 (by decide)

theorem no_write_of_zero_removed (env : Env) (content : List Char)
    (hread : env.readResult = some content)
    (hzero : (sanitize content linesToRemove).2 = 0) :
    ∀ p c, Event.writeFile p c ∉ (mainRun env).1 := by
  intro p c
  cases hargv : env.argv2 with
  | none => rw [mainRun_no_name env (Or.inl hargv)]; simp
  | some nm =>
    cases nm with
    | nil => rw [mainRun_no_name env (Or.inr hargv)]; simp
    | cons a as =>
      by_cases hgen : env.genResult = .exited 0
      · cases hroot : env.entries with
        | none => rw [mainRun_root_missing env a as hargv hgen hroot]; simp
        | some es =>
          cases hloc : locateLatest es with
          | none =>
            rw [mainRun_locate_fails env a as es hargv hgen hroot hloc]
            simp
          | some d =>
            rw [mainRun_no_removal env a as es d content hargv hgen hroot hloc
              hread hzero]
            rcases finishRun_eq [Event.cmd (generateCmd (a :: as)), Event.readdir,
                Event.readFile (migrationFilePath env.cwd d)] env with
              ⟨_, he⟩ | ⟨_, he⟩ <;> rw [he] <;> simp
      · rw [mainRun_gen_fails env a as hargv hgen]; simp

/-! ## Claim C1 -/

/-- C1 counterexample: with script `"A"` and the blacklist `["A", ""]`
(the empty string is a substring every line contains), the loop reports 2
removed lines although only one input line exists, so the removed count
does not equal the number of matching input lines. After the first pass
empties the content, re-splitting yields one phantom empty line that the
empty fragment matches and counts again. -/
theorem sanitize_count_cex :
    ¬ (sanitize (("A").toList) [("A").toList, []] =
        (joinNl ((splitOnNl (("A").toList)).filter
          fun l => !(matchesAny [("A").toList, []] l)),
         ((splitOnNl (("A").toList)).filter
          fun l => matchesAny [("A").toList, []] l).length)) := by
  decide

/-- C1 (amended with nonempty blacklist entries, which the configured
blacklist satisfies): sanitization retains exactly the lines containing no
blacklist substring, joined back in their original relative order, and the
removed count equals the number of input lines containing at least one
blacklist substring. -/
theorem sanitize_retains_exactly_clean_lines (content : List Char)
    (B : List (List Char)) (hB : ∀ b ∈ B, b ≠ []) :
    sanitize content B =
      (joinNl ((splitOnNl content).filter fun l => !(matchesAny B l)),
       ((splitOnNl content).filter fun l => matchesAny B l).length) := by
  rw [sanitize_eq_spec_aux content B hB, sanitizeSpec]
  have hlen := length_filter_add_length_filter_not (splitOnNl content)
    (fun l => matchesAny B l)
  have hle := List.length_filter_le (fun l => matchesAny B l) (splitOnNl content)
  simp only at hlen hle ⊢
  congr 1
  omega

/-- C1 witness at the specification's four-line example script with the
configured blacklist: the two CREATE lines survive in order and the
removed count is 2. -/
theorem sanitize_retains_exactly_clean_lines_witness :
    (∀ b ∈ linesToRemove, b ≠ []) ∧
    sanitize exampleScript linesToRemove = (cleanScript, 2) := by
  refine ⟨by decide, ?_⟩
  rw [sanitize_retains_exactly_clean_lines exampleScript linesToRemove
    (by decide)]
  decide

/-! ## Claim C2 -/

/-- C2: if no line of the script contains any blacklist substring, the
removed count is 0 and the content is returned unchanged, and a run whose
script file holds that clean content never performs a write: the file is
left untouched. -/
theorem clean_script_leaves_file_untouched (env : Env) (content : List Char)
    (B : List (List Char))
    (hclean : ∀ l ∈ splitOnNl content, ∀ b ∈ B, includesSub l b = false) :
    sanitize content B = (content, 0) ∧
    (env.readResult = some content → B = linesToRemove →
      ∀ p c, Event.writeFile p c ∉ (mainRun env).1) := by
  have h1 : sanitize content B = (content, 0) :=
    foldl_sanitizeStep_clean B content hclean 0
  refine ⟨h1, fun hread hB p c => ?_⟩
  subst hB
  exact no_write_of_zero_removed env content hread (by rw [h1]) p c

/-- C2 witness: on the clean two-line script with the configured
blacklist, nothing is removed and the run of `envClean` never writes. -/
theorem clean_script_leaves_file_untouched_witness :
    sanitize cleanScript linesToRemove = (cleanScript, 0) ∧
    (envClean.readResult = some cleanScript → linesToRemove = linesToRemove →
      ∀ p c, Event.writeFile p c ∉ (mainRun envClean).1) :=
  clean_script_leaves_file_untouched envClean cleanScript linesToRemove
    (by decide)

/-! ## Claim C3 -/

/-- C3 counterexample: with script `"B"` and blacklist `["B", ""]`,
sanitizing the already-sanitized (empty) content removes one further line
(the phantom empty line matched by the empty fragment), so the second run
is not a no-op. -/
theorem sanitize_idempotent_cex :
    ¬ ((sanitize (sanitize (("B").toList) [("B").toList, []]).1
        [("B").toList, []]).2 = 0) := by
  decide

/-- C3 (amended with nonempty blacklist entries, which the configured
blacklist satisfies): sanitization is idempotent; re-running it on the
sanitized content changes nothing and removes zero further lines. -/
theorem sanitize_idempotent (content : List Char) (B : List (List Char))
    (hB : ∀ b ∈ B, b ≠ []) :
    sanitize (sanitize content B).1 B = ((sanitize content B).1, 0) := by
  have h1 := sanitize_eq_spec_aux content B hB
  rw [sanitizeSpec] at h1
  rw [h1]
  simp only
  rw [sanitize]
  rw [foldl_sanitizeStep_joinNl B hB _
    (fun l hl => nl_not_mem_splitOnNl content l (List.mem_filter.mp hl).1) 0]
  have hid : (((splitOnNl content).filter fun l => !(matchesAny B l)).filter
      fun l => !(matchesAny B l))
      = (splitOnNl content).filter fun l => !(matchesAny B l) :=
    List.filter_eq_self.mpr (fun a ha => (List.mem_filter.mp ha).2)
  rw [hid]
  simp

/-- C3 witness at the example script with the configured blacklist. -/
theorem sanitize_idempotent_witness :
    sanitize (sanitize exampleScript linesToRemove).1 linesToRemove =
      ((sanitize exampleScript linesToRemove).1, 0) :=
  sanitize_idempotent exampleScript linesToRemove (by decide)

/-! ## Claim C10 -/

/-- C10 counterexample: with script `"C"` and blacklist `["C", ""]`, the
sequential per-fragment loop returns a removed count of 2 while the
single-pass sanitizer returns 1, so the two strategies are not equivalent
for every blacklist. -/
theorem sanitize_single_pass_cex :
    ¬ (sanitize (("C").toList) [("C").toList, []] =
       sanitizeSpec (("C").toList) [("C").toList, []]) := by
  decide

/-- C10 (amended with nonempty blacklist entries, which the configured
blacklist satisfies): the sequential per-fragment strategy yields the same
final content and the same total count as the single pass dropping every
line containing any blacklist substring. -/
theorem sanitize_refines_single_pass (content : List Char)
    (B : List (List Char)) (hB : ∀ b ∈ B, b ≠ []) :
    sanitize content B = sanitizeSpec content B :=
  sanitize_eq_spec_aux content B hB

/-- C10 witness at the example script with the configured blacklist. -/
theorem sanitize_refines_single_pass_witness :
    sanitize exampleScript linesToRemove =
      sanitizeSpec exampleScript linesToRemove :=
  sanitize_refines_single_pass exampleScript linesToRemove (by decide)

/-! ## Claim C8 -/

/-- C8: `runCommand` returns normally iff the child exits with status 0;
otherwise (nonzero exit or spawn failure) it reports which command failed
(the error text contains the command line) and terminates the process with
exit code 1. -/
theorem runCommand_contract (command : List Char) (res : CmdResult) :
    ((runCommand command res).2 = .normal ↔ res = .exited 0) ∧
    (res ≠ .exited 0 →
      (runCommand command res).2 = .fatal 1 ∧
      Event.report (cmdFailMsg command) ∈ (runCommand command res).1 ∧
      includesSub (cmdFailMsg command) command = true) := by
  by_cases h : res = .exited 0
  · subst h
    simp [runCommand]
  · refine ⟨by simp [runCommand, h], fun _ => ?_⟩
    exact ⟨by simp [runCommand, h], by simp [runCommand, h],
      cmdFailMsg_includes command⟩

/-- C8 witness at the deploy command with exit status 2. -/
theorem runCommand_contract_witness :
    ((runCommand deployCmd (.exited 2)).2 = .normal ↔
      (.exited 2 : CmdResult) = .exited 0) ∧
    ((.exited 2 : CmdResult) ≠ .exited 0 →
      (runCommand deployCmd (.exited 2)).2 = .fatal 1 ∧
      Event.report (cmdFailMsg deployCmd) ∈
        (runCommand deployCmd (.exited 2)).1 ∧
      includesSub (cmdFailMsg deployCmd) deployCmd = true) :=
  runCommand_contract deployCmd (.exited 2)

/-! ## Claim C6 -/

/-- C6: invoked without a migration name (absent or empty), the run is
exactly one usage-error report and exit code 1: no external command, no
directory listing, and no file read or write happens. -/
theorem missing_name_is_usage_error (env : Env)
    (h : env.argv2 = none ∨ env.argv2 = some []) :
    mainRun env = ([.report usageMsg], .exited 1) ∧
    exitCode (mainRun env).2 = 1 ∧
    (∀ c, Event.cmd c ∉ (mainRun env).1) ∧
    (∀ p, Event.readFile p ∉ (mainRun env).1) ∧
    (∀ p ct, Event.writeFile p ct ∉ (mainRun env).1) ∧
    Event.readdir ∉ (mainRun env).1 := by
  have he := mainRun_no_name env h
  rw [he]
  simp [exitCode]

/-- C6 witness at an environment with no CLI argument. -/
theorem missing_name_is_usage_error_witness :
    (envNoName.argv2 = none ∨ envNoName.argv2 = some []) ∧
    (mainRun envNoName = ([.report usageMsg], .exited 1) ∧
      exitCode (mainRun envNoName).2 = 1 ∧
      (∀ c, Event.cmd c ∉ (mainRun envNoName).1) ∧
      (∀ p, Event.readFile p ∉ (mainRun envNoName).1) ∧
      (∀ p ct, Event.writeFile p ct ∉ (mainRun envNoName).1) ∧
      Event.readdir ∉ (mainRun envNoName).1) :=
  ⟨Or.inl rfl, missing_name_is_usage_error envNoName (Or.inl rfl)⟩

/-! ## Claim C7 -/

/-- C7: when the generator command exits nonzero, the process terminates
with exit code 1 and neither the Locator (no directory listing), nor the
Sanitizer (no file read or write), nor Apply (no deploy command) ever
executes. -/
theorem generator_failure_short_circuits (env : Env) (c : Char)
    (nm : List Char) (hargv : env.argv2 = some (c :: nm))
    (hgen : ∃ s, env.genResult = .exited s ∧ s ≠ 0) :
    (mainRun env).2 = .exited 1 ∧
    Event.readdir ∉ (mainRun env).1 ∧
    (∀ p, Event.readFile p ∉ (mainRun env).1) ∧
    (∀ p ct, Event.writeFile p ct ∉ (mainRun env).1) ∧
    Event.cmd deployCmd ∉ (mainRun env).1 := by
  obtain ⟨s, hs, hs0⟩ := hgen
  have hne : env.genResult ≠ .exited 0 := by
    rw [hs]
    simp [hs0]
  rw [mainRun_gen_fails env c nm hargv hne]
  refine ⟨rfl, by simp, by simp, by simp, ?_⟩
  intro hmem
  simp at hmem
  exact generateCmd_ne_deployCmd (c :: nm) hmem.symm

/-- C7 witness at an environment whose generator exits with status 1. -/
theorem generator_failure_short_circuits_witness :
    (envGenFail.argv2 = some ('a' :: ("dd-field").toList)) ∧
    ((mainRun envGenFail).2 = .exited 1 ∧
      Event.readdir ∉ (mainRun envGenFail).1 ∧
      (∀ p, Event.readFile p ∉ (mainRun envGenFail).1) ∧
      (∀ p ct, Event.writeFile p ct ∉ (mainRun envGenFail).1) ∧
      Event.cmd deployCmd ∉ (mainRun envGenFail).1) :=
  ⟨by decide,
   generator_failure_short_circuits envGenFail 'a' (("dd-field").toList)
     (by decide) ⟨1, rfl, by decide⟩⟩

/-! ## Claim C5 -/

/-- C5: each discovery failure (missing migrations root, empty root, or no
entry at the computed offset) ends the run with exit code 1 during the
discovery phase: the Sanitizer (no file read or write) and Apply (no
deploy command) never execute, so nothing is mutated by this system. -/
theorem discovery_failure_aborts (env : Env) (c : Char) (nm : List Char)
    (hargv : env.argv2 = some (c :: nm))
    (hgen : env.genResult = .exited 0)
    (hdisc : env.entries = none ∨
      ∃ es, env.entries = some es ∧ locateLatest es = none) :
    exitCode (mainRun env).2 = 1 ∧ (mainRun env).2 ≠ .ok ∧
    (∀ p, Event.readFile p ∉ (mainRun env).1) ∧
    (∀ p ct, Event.writeFile p ct ∉ (mainRun env).1) ∧
    Event.cmd deployCmd ∉ (mainRun env).1 := by
  rcases hdisc with hroot | ⟨es, hroot, hloc⟩
  · rw [mainRun_root_missing env c nm hargv hgen hroot]
    refine ⟨rfl, by simp, by simp, by simp, ?_⟩
    intro hmem
    simp at hmem
    exact generateCmd_ne_deployCmd (c :: nm) hmem.symm
  · rw [mainRun_locate_fails env c nm es hargv hgen hroot hloc]
    refine ⟨rfl, by simp, by simp, by simp, ?_⟩
    intro hmem
    simp at hmem
    exact generateCmd_ne_deployCmd (c :: nm) hmem.symm

/-- C5 witness at an environment whose migrations root lists nothing. -/
theorem discovery_failure_aborts_witness :
    (envEmptyRoot.entries = none ∨
      ∃ es, envEmptyRoot.entries = some es ∧ locateLatest es = none) ∧
    (exitCode (mainRun envEmptyRoot).2 = 1 ∧ (mainRun envEmptyRoot).2 ≠ .ok ∧
      (∀ p, Event.readFile p ∉ (mainRun envEmptyRoot).1) ∧
      (∀ p ct, Event.writeFile p ct ∉ (mainRun envEmptyRoot).1) ∧
      Event.cmd deployCmd ∉ (mainRun envEmptyRoot).1) :=
  ⟨Or.inr ⟨[], rfl, by decide⟩,
   discovery_failure_aborts envEmptyRoot 'a' (("dd-field").toList) (by decide)
     rfl (Or.inr ⟨[], rfl, by decide⟩)⟩

/-! ## Claim C9 -/

/-- C9: every run either succeeds (outcome ok, exit code 0) or terminates
with exit code 1 after making a nonempty error text visible to the
operator (a `console.error` line naming the failing command or phase, or
the message of the uncaught exception Node prints while exiting). -/
theorem failures_exit_nonzero_and_report (env : Env) :
    ((mainRun env).2 = .ok ∧ exitCode (mainRun env).2 = 0) ∨
    (exitCode (mainRun env).2 = 1 ∧
      ∃ m, m ∈ reportedMsgs (mainRun env) ∧ m ≠ []) := by
  cases hargv : env.argv2 with
  | none =>
    right
    rw [mainRun_no_name env (Or.inl hargv)]
    exact ⟨rfl, usageMsg, by simp [reportedMsgs], by decide⟩
  | some nm =>
    cases nm with
    | nil =>
      right
      rw [mainRun_no_name env (Or.inr hargv)]
      exact ⟨rfl, usageMsg, by simp [reportedMsgs], by decide⟩
    | cons a as =>
      by_cases hgen : env.genResult = .exited 0
      · cases hroot : env.entries with
        | none =>
          right
          rw [mainRun_root_missing env a as hargv hgen hroot]
          exact ⟨rfl, readdirErrMsg, by simp [reportedMsgs], by decide⟩
        | some es =>
          cases hloc : locateLatest es with
          | none =>
            right
            rw [mainRun_locate_fails env a as es hargv hgen hroot hloc]
            exact ⟨rfl, notFoundMsg, by simp [reportedMsgs], by decide⟩
          | some d =>
            cases hread : env.readResult with
            | none =>
              right
              rw [mainRun_read_fails env a as es d hargv hgen hroot hloc hread]
              exact ⟨rfl, readErrMsg, by simp [reportedMsgs], by decide⟩
            | some ct =>
              by_cases hz : (sanitize ct linesToRemove).2 = 0
              · rw [mainRun_no_removal env a as es d ct hargv hgen hroot hloc
                  hread hz]
                rcases finishRun_eq [Event.cmd (generateCmd (a :: as)),
                    Event.readdir,
                    Event.readFile (migrationFilePath env.cwd d)] env with
                  ⟨_, he⟩ | ⟨_, he⟩
                · left
                  rw [he]
                  exact ⟨rfl, rfl⟩
                · right
                  rw [he]
                  exact ⟨rfl, cmdFailMsg deployCmd, by simp [reportedMsgs],
                    by decide⟩
              · have hpos : 0 < (sanitize ct linesToRemove).2 :=
                  Nat.pos_of_ne_zero hz
                cases hw : env.writeThrows with
                | true =>
                  right
                  rw [mainRun_removal_write_fails env a as es d ct hargv hgen
                    hroot hloc hread hpos hw]
                  exact ⟨rfl, writeErrMsg, by simp [reportedMsgs], by decide⟩
                | false =>
                  rw [mainRun_removal_written env a as es d ct hargv hgen
                    hroot hloc hread hpos hw]
                  rcases finishRun_eq [Event.cmd (generateCmd (a :: as)),
                      Event.readdir,
                      Event.readFile (migrationFilePath env.cwd d),
                      Event.writeFile (migrationFilePath env.cwd d)
                        (sanitize ct linesToRemove).1] env with
                    ⟨_, he⟩ | ⟨_, he⟩
                  · left
                    rw [he]
                    exact ⟨rfl, rfl⟩
                  · right
                    rw [he]
                    exact ⟨rfl, cmdFailMsg deployCmd, by simp [reportedMsgs],
                      by decide⟩
      · right
        rw [mainRun_gen_fails env a as hargv hgen]
        refine ⟨rfl, cmdFailMsg (generateCmd (a :: as)),
          by simp [reportedMsgs], ?_⟩
        simp [cmdFailMsg]

/-! ## Order lemmas for the sort model -/

theorem char_toNat_inj {a b : Char} (h : a.toNat = b.toNat) : a = b :=
  Char.eq_of_val_eq (UInt32.toNat.inj h)

theorem jsLt_irrefl (a : List Char) : jsLt a a = false := by
  induction a with
  | nil => rfl
  | cons c cs ih => simp [jsLt, ih]

theorem jsLt_trans : ∀ {a b c : List Char}, jsLt a b = true →
    jsLt b c = true → jsLt a c = true := by
  intro a
  induction a with
  | nil =>
    intro b c hab hbc
    cases b with
    | nil => simp [jsLt] at hab
    | cons y ys =>
      cases c with
      | nil => simp [jsLt] at hbc
      | cons z zs => rfl
  | cons x xs ih =>
    intro b c hab hbc
    cases b with
    | nil => simp [jsLt] at hab
    | cons y ys =>
      cases c with
      | nil => simp [jsLt] at hbc
      | cons z zs =>
        simp only [jsLt] at hab hbc ⊢
        rcases Nat.lt_trichotomy x.toNat y.toNat with h1 | h1 | h1
        · rcases Nat.lt_trichotomy y.toNat z.toNat with h2 | h2 | h2
          · rw [if_pos (Nat.lt_trans h1 h2)]
          · rw [if_pos (h2 ▸ h1)]
          · rw [if_neg (by omega), if_pos h2] at hbc
            cases hbc
        · rcases Nat.lt_trichotomy y.toNat z.toNat with h2 | h2 | h2
          · rw [if_pos (h1 ▸ h2)]
          · rw [if_neg (by omega), if_neg (by omega)] at hab hbc ⊢
            exact ih hab hbc
          · rw [if_neg (by omega), if_pos h2] at hbc
            cases hbc
        · rw [if_neg (by omega), if_pos h1] at hab
          cases hab

theorem jsLt_conn : ∀ {a b : List Char}, jsLt a b = false →
    jsLt b a = false → a = b := by
  intro a
  induction a with
  | nil =>
    intro b hab _
    cases b with
    | nil => rfl
    | cons y ys => simp [jsLt] at hab
  | cons x xs ih =>
    intro b hab hba
    cases b with
    | nil => simp [jsLt] at hba
    | cons y ys =>
      simp only [jsLt] at hab hba
      rcases Nat.lt_trichotomy x.toNat y.toNat with h1 | h1 | h1
      · rw [if_pos h1] at hab
        cases hab
      · rw [if_neg (by omega), if_neg (by omega)] at hab hba
        rw [char_toNat_inj h1, ih hab hba]
      · rw [if_pos h1] at hba
        cases hba

theorem jsLe_refl (a : List Char) : jsLe a a = true := by
  simp [jsLe, jsLt_irrefl]

theorem jsLe_total (a b : List Char) : jsLe a b = true ∨ jsLe b a = true := by
  cases hba : jsLt b a with
  | false => exact Or.inl (by simp [jsLe, hba])
  | true =>
    right
    cases hab : jsLt a b with
    | false => simp [jsLe, hab]
    | true =>
      have haa := jsLt_trans hab hba
      rw [jsLt_irrefl a] at haa
      cases haa

theorem jsLe_trans {a b c : List Char} (h1 : jsLe a b = true)
    (h2 : jsLe b c = true) : jsLe a c = true := by
  simp only [jsLe, Bool.not_eq_true'] at h1 h2 ⊢
  cases hca : jsLt c a with
  | false => rfl
  | true =>
    exfalso
    cases hbc : jsLt b c with
    | true =>
      have := jsLt_trans hbc hca
      rw [this] at h1
      cases h1
    | false =>
      have hbceq : b = c := jsLt_conn hbc h2
      rw [← hbceq] at hca
      rw [hca] at h1
      cases h1

theorem perm_orderedInsertB (le : List Char → List Char → Bool)
    (a : List Char) (l : List (List Char)) :
    (orderedInsertB le a l).Perm (a :: l) := by
  induction l with
  | nil => exact List.Perm.refl _
  | cons b l ih =>
    by_cases h : le a b = true
    · rw [orderedInsertB, if_pos h]
    · rw [orderedInsertB, if_neg h]
      exact (ih.cons b).trans (List.Perm.swap a b l)

theorem perm_sortJs (le : List Char → List Char → Bool)
    (l : List (List Char)) : (sortJs le l).Perm l := by
  induction l with
  | nil => exact List.Perm.refl _
  | cons a l ih =>
    rw [sortJs]
    exact (perm_orderedInsertB le a (sortJs le l)).trans (ih.cons a)

theorem pairwise_orderedInsertB (a : List Char) (l : List (List Char))
    (hl : l.Pairwise fun x y => jsLe x y = true) :
    (orderedInsertB jsLe a l).Pairwise fun x y => jsLe x y = true := by
  induction l with
  | nil => simp [orderedInsertB]
  | cons b l ih =>
    rcases List.pairwise_cons.mp hl with ⟨hb, hl2⟩
    by_cases h : jsLe a b = true
    · rw [orderedInsertB, if_pos h]
      refine List.pairwise_cons.mpr ⟨?_, hl⟩
      intro x hx
      rcases List.mem_cons.mp hx with rfl | hx
      · exact h
      · exact jsLe_trans h (hb x hx)
    · rw [orderedInsertB, if_neg h]
      have hba : jsLe b a = true := (jsLe_total a b).resolve_left h
      refine List.pairwise_cons.mpr ⟨?_, ih hl2⟩
      intro x hx
      have hx2 := (perm_orderedInsertB jsLe a l).mem_iff.mp hx
      rcases List.mem_cons.mp hx2 with rfl | hx2
      · exact hba
      · exact hb x hx2

theorem pairwise_sortJs (l : List (List Char)) :
    (sortJs jsLe l).Pairwise fun x y => jsLe x y = true := by
  induction l with
  | nil => simp [sortJs]
  | cons a l ih =>
    rw [sortJs]
    exact pairwise_orderedInsertB a (sortJs jsLe l) ih

/-! ## Claim C4 -/

/-- C4: the locator sorts the root entries descending and selects the
entry at fixed offset 1 from the top; whenever the marker entry is the
unique name sorting above every migration directory and at least two
entries exist, the selected entry is the largest non-marker entry, and the
run then reads `migration.sql` inside that directory. -/
theorem locator_selects_second_largest (entries : List (List Char))
    (marker : List Char) (hnd : entries.Nodup) (hmem : marker ∈ entries)
    (hgt : ∀ e ∈ entries, e ≠ marker → jsLt e marker = true)
    (h2 : 2 ≤ entries.length) :
    ∃ m, locateLatest entries = some m ∧ m ∈ entries ∧ m ≠ marker ∧
      (∀ e ∈ entries, e ≠ marker → jsLe e m = true) ∧
      (∀ (c : Char) (nm : List Char) (env : Env),
        env.argv2 = some (c :: nm) → env.genResult = .exited 0 →
        env.entries = some entries →
        Event.readFile (migrationFilePath env.cwd m) ∈ (mainRun env).1) := by
  have hperm : (sortJs jsLe entries).Perm entries := perm_sortJs jsLe entries
  have hsort := pairwise_sortJs entries
  have hlen : (sortJs jsLe entries).length = entries.length := hperm.length_eq
  have hlt : (sortJs jsLe entries).length - 2 < (sortJs jsLe entries).length := by
    omega
  have hlast_lt :
      (sortJs jsLe entries).length - 1 < (sortJs jsLe entries).length := by
    omega
  have hsome : locateLatest entries =
      some (sortJs jsLe entries)[(sortJs jsLe entries).length - 2] := by
    rw [locateLatest, List.getElem?_reverse (by omega)]
    have hidx : (sortJs jsLe entries).length - 1 - 1
        = (sortJs jsLe entries).length - 2 := by omega
    rw [hidx, List.getElem?_eq_getElem hlt]
  have hmarker_s : marker ∈ sortJs jsLe entries := hperm.mem_iff.mpr hmem
  have hlast :
      (sortJs jsLe entries)[(sortJs jsLe entries).length - 1] = marker := by
    by_contra hne
    have hmem_last :
        (sortJs jsLe entries)[(sortJs jsLe entries).length - 1] ∈ entries :=
      hperm.mem_iff.mp (List.getElem_mem hlast_lt)
    have hltm := hgt _ hmem_last hne
    obtain ⟨i, hi, hieq⟩ := List.mem_iff_getElem.mp hmarker_s
    have hine : i ≠ (sortJs jsLe entries).length - 1 := by
      intro h3
      subst h3
      exact hne hieq
    have hile : i < (sortJs jsLe entries).length - 1 := by omega
    have hle := List.pairwise_iff_getElem.mp hsort i
      ((sortJs jsLe entries).length - 1) hi hlast_lt hile
    rw [hieq] at hle
    simp only [jsLe] at hle
    rw [hltm] at hle
    cases hle
  have hnds : (sortJs jsLe entries).Nodup := hperm.symm.nodup hnd
  refine ⟨(sortJs jsLe entries)[(sortJs jsLe entries).length - 2], hsome,
    hperm.mem_iff.mp (List.getElem_mem hlt), ?_, ?_, ?_⟩
  · intro h3
    rw [← hlast] at h3
    have hidx := (@List.Nodup.getElem_inj_iff _ _ hnds _ hlt _ hlast_lt).mp h3
    omega
  · intro e he hene
    obtain ⟨j, hj, hjeq⟩ := List.mem_iff_getElem.mp (hperm.mem_iff.mpr he)
    have hjne : j ≠ (sortJs jsLe entries).length - 1 := by
      intro h3
      subst h3
      exact hene (hjeq.symm.trans hlast)
    rcases Nat.lt_or_ge j ((sortJs jsLe entries).length - 2) with hcase | hcase
    · have hle := List.pairwise_iff_getElem.mp hsort j
        ((sortJs jsLe entries).length - 2) hj hlt hcase
      rw [hjeq] at hle
      exact hle
    · have hjeq2 : j = (sortJs jsLe entries).length - 2 := by omega
      subst hjeq2
      rw [← hjeq]
      exact jsLe_refl _
  · intro c nm env hargv hgen hroot
    cases hread : env.readResult with
    | none =>
      rw [mainRun_read_fails env c nm entries _ hargv hgen hroot hsome hread]
      simp
    | some ct =>
      by_cases hz : (sanitize ct linesToRemove).2 = 0
      · rw [mainRun_no_removal env c nm entries _ ct hargv hgen hroot hsome
          hread hz]
        rcases finishRun_eq [Event.cmd (generateCmd (c :: nm)), Event.readdir,
            Event.readFile (migrationFilePath env.cwd
              (sortJs jsLe entries)[(sortJs jsLe entries).length - 2])] env with
          ⟨_, he⟩ | ⟨_, he⟩ <;> rw [he] <;> simp
      · have hpos : 0 < (sanitize ct linesToRemove).2 := Nat.pos_of_ne_zero hz
        cases hw : env.writeThrows with
        | true =>
          rw [mainRun_removal_write_fails env c nm entries _ ct hargv hgen
            hroot hsome hread hpos hw]
          simp
        | false =>
          rw [mainRun_removal_written env c nm entries _ ct hargv hgen hroot
            hsome hread hpos hw]
          rcases finishRun_eq [Event.cmd (generateCmd (c :: nm)), Event.readdir,
              Event.readFile (migrationFilePath env.cwd
                (sortJs jsLe entries)[(sortJs jsLe entries).length - 2]),
              Event.writeFile (migrationFilePath env.cwd
                (sortJs jsLe entries)[(sortJs jsLe entries).length - 2])
                (sanitize ct linesToRemove).1] env with
            ⟨_, he⟩ | ⟨_, he⟩ <;> rw [he] <;> simp

/-- C4 witness at the specification's example listing: the locator selects
`20240102_b`, skipping the marker `migration_lock.toml` that sorts
first. -/
theorem locator_selects_second_largest_witness :
    locateLatest exampleEntries = some (("20240102_b").toList) ∧
    (∃ m, locateLatest exampleEntries = some m ∧ m ∈ exampleEntries ∧
      m ≠ ("migration_lock.toml").toList ∧
      (∀ e ∈ exampleEntries, e ≠ ("migration_lock.toml").toList →
        jsLe e m = true) ∧
      (∀ (c : Char) (nm : List Char) (env : Env),
        env.argv2 = some (c :: nm) → env.genResult = .exited 0 →
        env.entries = some exampleEntries →
        Event.readFile (migrationFilePath env.cwd m) ∈ (mainRun env).1)) :=
  ⟨by decide,
   locator_selects_second_largest exampleEntries
     (("migration_lock.toml").toList) (by decide) (by decide) (by decide)
     (by decide)⟩
